import Mathlib

/-!
Verification development for the pyrox client (`src/pyrox/core.py`,
`src/pyrox/manifest.py`).

Shallow embedding conventions:
* `pandas.DataFrame` results are embedded as `List` of rows; for the race
  claims a row carries a `name` and the raw `total_time` string (other
  columns are irrelevant to the verified properties and are not modelled).
* The on-disk cache is embedded as association lists: `metadata` mirrors
  `CacheManager.metadata` (key → entry), `files` mirrors the cache
  directory (path → file content, where `some df` is a readable parquet
  file and `none` is a file that exists but fails to parse), and
  `metadata_file` mirrors the persisted `metadata.json` (`Option` because
  the file may not exist yet).
* Wall-clock times (`time.time()`) and TTLs are rationals passed
  explicitly; python floats elsewhere are also modelled as rationals.
* The md5 hex digest used by `CacheManager.get_cache_path` and the parquet
  file size used for the `size_mb` field are opaque functions passed as
  parameters.
* Fallible operations return `Except PyErr`; raising an exception in the
  python source corresponds to an `Except.error` value.
-/

namespace Pyrox

/-- A raw result row as fetched from the CDN: an athlete name and the
`total_time` column as the raw `MM:SS` / `HH:MM:SS` string. -/
structure Row where
  name : String
  total_time : String
deriving DecidableEq, Repr

/-- A row after `get_race`'s time conversion: `total_time` holds the value
in minutes, or `none` when the raw string failed to parse (pandas `NaN`
from `errors="coerce"`). -/
structure RowC where
  name : String
  total_time : Option ℚ
deriving DecidableEq, Repr

/-- A fetched table (embedding of a `pandas.DataFrame` of raw rows). -/
abbrev DF := List Row

/-- A converted table (rows after `mmss_to_minutes` conversion). -/
abbrev DFC := List RowC

/-- The exception taxonomy relevant to the verified claims.
`raceNotFound` is `pyrox.errors.RaceNotFound`; `fileNotFound` is python's
builtin `FileNotFoundError`; `manifestUnavailable` is
`pyrox.errors.ManifestUnavailable`; `transportError` stands for any
httpx/fsspec transport exception propagating uncaught; `valueError` and
`keyError` are the python builtins. -/
inductive PyErr where
  | raceNotFound (msg : String)
  | fileNotFound (msg : String)
  | manifestUnavailable (msg : String)
  | transportError (msg : String)
  | valueError (msg : String)
  | keyError (msg : String)
deriving DecidableEq, Repr

/-! ## Association-list primitives

`CacheManager.metadata` is a python dict; we embed it as an association
list where `upsert` mirrors `d[k] = v` and `eraseKey` mirrors `del d[k]`.
-/

/-- Dict write `d[k] = v`: the new binding shadows and removes any old one. -/
def upsert {β : Type} (l : List (String × β)) (k : String) (v : β) :
    List (String × β) :=
  (k, v) :: l.filter (fun p => p.1 != k)

/-- Dict delete `del d[k]`. -/
def eraseKey {β : Type} (l : List (String × β)) (k : String) :
    List (String × β) :=
  l.filter (fun p => p.1 != k)

theorem lookup_upsert_self {β : Type} (l : List (String × β)) (k : String)
    (v : β) : (upsert l k v).lookup k = some v := by
  simp [upsert, List.lookup]

theorem lookup_erase_ne {β : Type} (l : List (String × β)) (k k' : String)
    (h : k' ≠ k) : (eraseKey l k).lookup k' = l.lookup k' := by
  induction l with
  | nil => rfl
  | cons p rest ih =>
    by_cases hp : p.1 = k
    · have h1 : (p.1 != k) = false := by simp [hp]
      have h2 : (k' == p.1) = false := by simp [hp, h]
      simp [eraseKey, List.filter_cons, h1, List.lookup, h2]
      simpa [eraseKey] using ih
    · have h1 : (p.1 != k) = true := by simp [hp]
      by_cases hk : k' = p.1
      · simp [eraseKey, List.filter_cons, h1, List.lookup, hk]
      · have h2 : (k' == p.1) = false := by simp [hk]
        simp [eraseKey, List.filter_cons, h1, List.lookup, h2]
        simpa [eraseKey] using ih

theorem lookup_upsert_ne {β : Type} (l : List (String × β)) (k k' : String)
    (v : β) (h : k' ≠ k) : (upsert l k v).lookup k' = l.lookup k' := by
  have hne : (k' == k) = false := by simp [h]
  have := lookup_erase_ne l k k' h
  simp only [eraseKey] at this
  simp [upsert, List.lookup, hne, this]

theorem lookup_erase_self {β : Type} (l : List (String × β)) (k : String) :
    (eraseKey l k).lookup k = none := by
  induction l with
  | nil => rfl
  | cons p rest ih =>
    by_cases hp : p.1 = k
    · have h1 : (p.1 != k) = false := by simp [hp]
      simp [eraseKey, List.filter_cons, h1]
      simpa [eraseKey] using ih
    · have h1 : (p.1 != k) = true := by simp [hp]
      have h2 : (k == p.1) = false := by
        simp only [beq_eq_false_iff_ne, ne_eq]
        exact fun hh => hp hh.symm
      simp [eraseKey, List.filter_cons, h1, List.lookup, h2]
      simpa [eraseKey] using ih

/-! ## CacheManager (core.py lines 31–142) -/

/-- One value of `CacheManager.metadata`: the dict literal written by
`CacheManager.store` (core.py lines 89–95). -/
structure Entry where
  timestamp : ℚ
  etag : Option String
  path : String
  rows : ℕ
  size_mb : ℚ
deriving DecidableEq, Repr

/-- Metadata index: key → entry (the python dict `self.metadata`). -/
abbrev Index := List (String × Entry)

/-- The cache directory: path → file content. `some (some df)` is a
readable parquet file, `some none` a corrupt one, `none` (lookup miss) a
missing file. -/
abbrev FileSys := List (String × Option DF)

/-- The observable state of one `CacheManager`: the in-memory index, the
cache directory, and the persisted `metadata.json` (`none` before the
first `_write_metadata_locked`). -/
structure CacheState where
  metadata : Index
  files : FileSys
  metadata_file : Option Index
deriving DecidableEq, Repr

/-- `CacheManager.get_cache_path` (core.py 56–60):
`cache_dir / f"{md5(key)}.parquet"`. The raw key never appears in the
path. -/
def get_cache_path (dir : String) (md5 : String → String) (key : String) :
    String :=
  dir ++ "/" ++ md5 key ++ ".parquet"

/-- `CacheManager.is_fresh` (core.py 62–72): true iff an entry exists and
`time.time() - entry['timestamp'] < ttl_seconds`. -/
def is_fresh (now : ℚ) (st : CacheState) (key : String) (ttl_seconds : ℚ) :
    Bool :=
  match st.metadata.lookup key with
  | none => false
  | some entry => decide (now - entry.timestamp < ttl_seconds)

/-- `CacheManager.get_etag` (core.py 74–78). -/
def get_etag (st : CacheState) (key : String) : Option String :=
  match st.metadata.lookup key with
  | none => none
  | some entry => entry.etag

/-- The index entry written by `CacheManager.store` (core.py 89–95);
`sz` abstracts `cache_path.stat().st_size / 1024 / 1024`. -/
def storeEntry (dir : String) (md5 : String → String) (sz : DF → ℚ)
    (now : ℚ) (key : String) (df : DF) (etag : Option String) : Entry :=
  { timestamp := now
    etag := etag
    path := get_cache_path dir md5 key
    rows := df.length
    size_mb := sz df }

/-- `CacheManager.store` (core.py 80–97): write the parquet artifact,
then update the in-memory index, then persist the whole index. -/
def store (dir : String) (md5 : String → String) (sz : DF → ℚ) (now : ℚ)
    (st : CacheState) (key : String) (df : DF) (etag : Option String) :
    CacheState :=
  let cache_path := get_cache_path dir md5 key
  let files1 := upsert st.files cache_path (some df)
  let metadata1 :=
    upsert st.metadata key (storeEntry dir md5 sz now key df etag)
  { metadata := metadata1, files := files1, metadata_file := some metadata1 }

/-- `CacheManager.load` (core.py 99–122): returns the cached table, or
`none`; when the index claims presence but the artifact is missing or
unreadable, the entry is pruned and the index re-persisted. -/
def load (dir : String) (md5 : String → String) (st : CacheState)
    (key : String) : CacheState × Option DF :=
  match st.metadata.lookup key with
  | none => (st, none)
  | some _ =>
    let cache_path := get_cache_path dir md5 key
    match st.files.lookup cache_path with
    | none =>
      -- artifact file does not exist: prune stale metadata and persist
      let metadata1 := eraseKey st.metadata key
      ({ metadata := metadata1, files := st.files,
         metadata_file := some metadata1 }, none)
    | some none =>
      -- file exists but `pd.read_parquet` raises: unlink, prune, persist
      let metadata1 := eraseKey st.metadata key
      ({ metadata := metadata1, files := eraseKey st.files cache_path,
         metadata_file := some metadata1 }, none)
    | some (some df) => (st, some df)

/-- C5 sanity check on concrete data. -/
example :
    is_fresh 10 (store "d" id (fun _ => 0) 4
      ⟨[], [], none⟩ "k" [] none) "k" 7 = true := by
  simp [is_fresh, store, storeEntry, upsert, List.lookup]
  norm_num

/-- C5: `is_fresh` semantics. -/
theorem is_fresh_spec (dir : String) (md5 : String → String)
    (sz : DF → ℚ) (now : ℚ) (st : CacheState) (key : String) (ttl : ℚ)
    (df : DF) (etag : Option String) :
    (is_fresh now st key ttl = true ↔
      ∃ e, st.metadata.lookup key = some e ∧ now - e.timestamp < ttl)
    ∧ (st.metadata.lookup key = none → is_fresh now st key ttl = false)
    ∧ (0 < ttl →
        is_fresh now (store dir md5 sz now st key df etag) key ttl = true)
    ∧ (∀ later : ℚ, ttl < later - now →
        is_fresh later (store dir md5 sz now st key df etag) key ttl
          = false) := by
  refine ⟨?_, ?_, ?_, ?_⟩
  · constructor
    · intro h
      cases hl : st.metadata.lookup key with
      | none => rw [is_fresh, hl] at h; exact absurd h (by simp)
      | some e =>
        refine ⟨e, rfl, ?_⟩
        rw [is_fresh, hl] at h
        exact of_decide_eq_true h
    · rintro ⟨e, hl, hlt⟩
      rw [is_fresh, hl]
      exact decide_eq_true hlt
  · intro hl
    rw [is_fresh, hl]
  · intro httl
    have hl : (store dir md5 sz now st key df etag).metadata.lookup key
        = some (storeEntry dir md5 sz now key df etag) :=
      lookup_upsert_self _ _ _
    rw [is_fresh, hl, storeEntry]
    simpa using httl
  · intro later hlt
    have hl : (store dir md5 sz now st key df etag).metadata.lookup key
        = some (storeEntry dir md5 sz now key df etag) :=
      lookup_upsert_self _ _ _
    rw [is_fresh, hl, storeEntry]
    simp only [decide_eq_false_iff_not, not_lt]
    linarith

/-- C5 witness: `is_fresh_spec` applied at a concrete store. -/
theorem is_fresh_spec_witness :
    is_fresh 4 (store "d" id (fun _ => 0) 4 ⟨[], [], none⟩ "k" [] none)
      "k" 7 = true
    ∧ is_fresh 20 (store "d" id (fun _ => 0) 4 ⟨[], [], none⟩ "k" [] none)
      "k" 7 = false :=
  ⟨(is_fresh_spec "d" id (fun _ => 0) 4 ⟨[], [], none⟩ "k" 7 [] none).2.2.1
      (by norm_num),
   (is_fresh_spec "d" id (fun _ => 0) 4 ⟨[], [], none⟩ "k" 7 [] none).2.2.2
      20 (by norm_num)⟩

/-- C6: when the index has an entry for `key` but the backing artifact is
missing (`load`'s `not cache_path.exists()` branch) or unreadable (the
`except` branch around `pd.read_parquet`), `load` returns `none`, removes
the entry from the in-memory index, persists the updated index, and the
entry is gone as observed by `is_fresh`. -/
theorem load_self_heals (dir : String) (md5 : String → String)
    (st : CacheState) (key : String) (e : Entry)
    (hm : st.metadata.lookup key = some e)
    (hbad : st.files.lookup (get_cache_path dir md5 key) = none
      ∨ st.files.lookup (get_cache_path dir md5 key) = some none) :
    (load dir md5 st key).2 = none
    ∧ (load dir md5 st key).1.metadata.lookup key = none
    ∧ (load dir md5 st key).1.metadata_file
        = some (load dir md5 st key).1.metadata
    ∧ ∀ now ttl : ℚ, is_fresh now (load dir md5 st key).1 key ttl = false := by
  rcases hbad with hb | hb
  · simp only [load, hm, hb]
    refine ⟨trivial, lookup_erase_self _ _, trivial, ?_⟩
    intro now ttl
    rw [is_fresh, lookup_erase_self]
  · simp only [load, hm, hb]
    refine ⟨trivial, lookup_erase_self _ _, trivial, ?_⟩
    intro now ttl
    rw [is_fresh, lookup_erase_self]

/-- C6 witness: a concrete index entry whose artifact file is gone. -/
theorem load_self_heals_witness :
    (load "d" id ⟨[("k", ⟨0, none, "d/k.parquet", 0, 0⟩)], [], none⟩ "k").2
        = none
    ∧ (load "d" id ⟨[("k", ⟨0, none, "d/k.parquet", 0, 0⟩)], [], none⟩
        "k").1.metadata.lookup "k" = none
    ∧ (load "d" id ⟨[("k", ⟨0, none, "d/k.parquet", 0, 0⟩)], [], none⟩
        "k").1.metadata_file
      = some (load "d" id ⟨[("k", ⟨0, none, "d/k.parquet", 0, 0⟩)], [], none⟩
        "k").1.metadata
    ∧ ∀ now ttl : ℚ,
        is_fresh now
          (load "d" id ⟨[("k", ⟨0, none, "d/k.parquet", 0, 0⟩)], [], none⟩
            "k").1 "k" ttl = false :=
  load_self_heals "d" id _ "k" ⟨0, none, "d/k.parquet", 0, 0⟩ rfl (Or.inl rfl)

/-! ## C8: the write-then-index order inside `store`

`CacheManager.store` is split into its three observable steps, in source
order (core.py 82–97): write the parquet artifact (line 85), update the
in-memory index entry (lines 89–95), persist the index (line 97). -/

/-- The three observable steps of `CacheManager.store`, in source order. -/
inductive StoreStep where
  | writeArtifact
  | updateIndex
  | flushIndex
deriving DecidableEq, Repr

/-- The step sequence executed by one `store` call. -/
def storeProg : List StoreStep := [.writeArtifact, .updateIndex, .flushIndex]

/-- Effect of a single `store` step on the cache state. -/
def execStoreStep (dir : String) (md5 : String → String) (sz : DF → ℚ)
    (now : ℚ) (key : String) (df : DF) (etag : Option String)
    (st : CacheState) : StoreStep → CacheState
  | .writeArtifact =>
    { st with files :=
        upsert st.files (get_cache_path dir md5 key) (some df) }
  | .updateIndex =>
    { st with metadata :=
        upsert st.metadata key (storeEntry dir md5 sz now key df etag) }
  | .flushIndex => { st with metadata_file := some st.metadata }

/-- Run a list of `store` steps in order. -/
def execStore (dir : String) (md5 : String → String) (sz : DF → ℚ)
    (now : ℚ) (key : String) (df : DF) (etag : Option String)
    (st : CacheState) (steps : List StoreStep) : CacheState :=
  steps.foldl (execStoreStep dir md5 sz now key df etag) st

/-- A path is backed by a readable artifact file. -/
def fileReadable (fs : FileSys) (path : String) : Bool :=
  match fs.lookup path with
  | some (some _) => true
  | _ => false

/-- Every entry of the index references a readable artifact file. -/
def refsOk (idx : Index) (fs : FileSys) : Bool :=
  idx.all (fun p => fileReadable fs p.2.path)

/-- Both the in-memory index and the persisted index reference only
durably written artifacts. -/
def indexSafe (st : CacheState) : Bool :=
  refsOk st.metadata st.files && refsOk (st.metadata_file.getD []) st.files

theorem fileReadable_upsert_of (fs : FileSys) (path p : String) (df : DF)
    (h : fileReadable fs p = true) :
    fileReadable (upsert fs path (some df)) p = true := by
  by_cases hp : p = path
  · subst hp
    simp [fileReadable, lookup_upsert_self]
  · rw [fileReadable, lookup_upsert_ne fs path p _ hp]
    exact h

theorem refsOk_upsert_file (idx : Index) (fs : FileSys) (path : String)
    (df : DF) (h : refsOk idx fs = true) :
    refsOk idx (upsert fs path (some df)) = true := by
  rw [refsOk, List.all_eq_true] at *
  exact fun p hp => fileReadable_upsert_of fs path _ df (h p hp)

/-- C8: at every intermediate point of a `store` call, the persisted index
(and the in-memory index) reference only artifacts already written; the
step decomposition agrees with `store` itself; and under a
collision-resistant digest, distinct keys give distinct artifact paths
(the path is built from `md5 key`, never the raw key). -/
theorem store_data_before_index (dir : String) (md5 : String → String)
    (sz : DF → ℚ) (now : ℚ) (key : String) (df : DF) (etag : Option String)
    (st : CacheState) (hinv : indexSafe st = true) :
    (∀ n, indexSafe
      (execStore dir md5 sz now key df etag st (storeProg.take n)) = true)
    ∧ execStore dir md5 sz now key df etag st storeProg
        = store dir md5 sz now st key df etag
    ∧ (Function.Injective md5 → ∀ k1 k2 : String, k1 ≠ k2 →
        get_cache_path dir md5 k1 ≠ get_cache_path dir md5 k2) := by
  have hm : refsOk st.metadata st.files = true := by
    have := hinv
    rw [indexSafe, Bool.and_eq_true] at this
    exact this.1
  have hp : refsOk (st.metadata_file.getD []) st.files = true := by
    have := hinv
    rw [indexSafe, Bool.and_eq_true] at this
    exact this.2
  -- state after the artifact write
  have hm1 : refsOk st.metadata
      (upsert st.files (get_cache_path dir md5 key) (some df)) = true :=
    refsOk_upsert_file _ _ _ _ hm
  have hp1 : refsOk (st.metadata_file.getD [])
      (upsert st.files (get_cache_path dir md5 key) (some df)) = true :=
    refsOk_upsert_file _ _ _ _ hp
  -- state after the index update
  have hm2 : refsOk
      (upsert st.metadata key (storeEntry dir md5 sz now key df etag))
      (upsert st.files (get_cache_path dir md5 key) (some df)) = true := by
    rw [refsOk, List.all_eq_true]
    intro p hpmem
    rw [upsert, List.mem_cons] at hpmem
    rcases hpmem with hpe | hpmem
    · subst hpe
      simp [storeEntry, fileReadable, lookup_upsert_self]
    · rw [refsOk, List.all_eq_true] at hm1
      exact hm1 p (List.mem_of_mem_filter hpmem)
  refine ⟨?_, rfl, ?_⟩
  · intro n
    match n with
    | 0 => simpa [execStore, storeProg] using hinv
    | 1 =>
      simp only [storeProg, List.take, execStore, List.foldl, execStoreStep,
        indexSafe, Bool.and_eq_true]
      exact ⟨hm1, hp1⟩
    | 2 =>
      simp only [storeProg, List.take, execStore, List.foldl, execStoreStep,
        indexSafe, Bool.and_eq_true]
      exact ⟨hm2, hp1⟩
    | (n + 3) =>
      simp only [storeProg, List.take, List.take_nil, execStore, List.foldl,
        List.foldl_nil, execStoreStep, indexSafe, Bool.and_eq_true,
        Option.getD_some]
      exact ⟨hm2, hm2⟩
  · intro hinj k1 k2 hne hpath
    apply hne
    apply hinj
    have h1 : (dir ++ "/" ++ md5 k1).data ++ ".parquet".data
        = (dir ++ "/" ++ md5 k2).data ++ ".parquet".data := by
      have := congrArg String.data hpath
      simpa [get_cache_path, String.data_append] using this
    have h2 : (dir ++ "/" ++ md5 k1).data = (dir ++ "/" ++ md5 k2).data :=
      List.append_cancel_right h1
    have h3 : (dir ++ "/").data ++ (md5 k1).data
        = (dir ++ "/").data ++ (md5 k2).data := by
      simpa [String.data_append] using h2
    have h4 : (md5 k1).data = (md5 k2).data := List.append_cancel_left h3
    exact String.ext h4

/-- C8 witness: the intermediate-state invariant at a concrete store on an
initially empty cache, with the identity as (injective) digest. -/
theorem store_data_before_index_witness :
    (∀ n, indexSafe
      (execStore "d" id (fun _ => 0) 4 "k" [] none ⟨[], [], none⟩
        (storeProg.take n)) = true)
    ∧ execStore "d" id (fun _ => 0) 4 "k" [] none ⟨[], [], none⟩ storeProg
        = store "d" id (fun _ => 0) 4 ⟨[], [], none⟩ "k" [] none
    ∧ (Function.Injective (id : String → String) →
        ∀ k1 k2 : String, k1 ≠ k2 →
          get_cache_path "d" id k1 ≠ get_cache_path "d" id k2) :=
  store_data_before_index "d" id (fun _ => 0) 4 "k" [] none ⟨[], [], none⟩
    (by decide)

/-! ## C9: concurrent `store` calls with distinct keys

`CacheManager.store` writes the artifact outside the lock, then takes the
instance `RLock` and, while holding it, writes the index entry and flushes
the whole index via `_write_metadata_locked` (core.py 80–97, 52–54).
Each thread runs five steps: write artifact, acquire, update index, flush
index, release.  A schedule is any interleaving of thread ids; a step of
a thread that would need the lock while another thread holds it is
invalid (the real thread would block there), so quantifying over all
schedules on which every step fires covers every real interleaving,
including one writer paused between its index update and its flush while
another writer proceeds with its artifact write. -/

/-- Global state of one `CacheManager` shared by `n` storing threads:
the cache, the lock owner, and each thread's program counter (0 = before
artifact write, 1 = before acquire, 2 = before index update, 3 = before
index flush, 4 = before release, 5 = done). -/
structure ConcState (n : ℕ) where
  cache : CacheState
  lock : Option (Fin n)
  pc : Fin n → ℕ

section Concurrent

variable (dir : String) (md5 : String → String) (sz : DF → ℚ)
variable {n : ℕ} (kf : Fin n → String) (dfs : Fin n → DF)
variable (etags : Fin n → Option String) (tf : Fin n → ℚ)

/-- The index entry thread `i`'s `store` call writes. -/
def entryOf (i : Fin n) : Entry :=
  storeEntry dir md5 sz (tf i) (kf i) (dfs i) (etags i)

/-- One step of thread `i`'s `store` call; `none` when the step cannot
fire (the thread would block on the lock, or is already done). -/
def threadStep (i : Fin n) (st : ConcState n) : Option (ConcState n) :=
  if st.pc i = 0 then
    -- df.to_parquet(cache_path): outside the lock
    some { st with
      cache := { st.cache with
        files := upsert st.cache.files (get_cache_path dir md5 (kf i))
          (some (dfs i)) },
      pc := Function.update st.pc i 1 }
  else if st.pc i = 1 then
    -- with self._lock:
    if st.lock = none then
      some { st with lock := some i, pc := Function.update st.pc i 2 }
    else none
  else if st.pc i = 2 then
    -- self.metadata[key] = {...}
    if st.lock = some i then
      some { st with
        cache := { st.cache with
          metadata := upsert st.cache.metadata (kf i)
            (entryOf dir md5 sz kf dfs etags tf i) },
        pc := Function.update st.pc i 3 }
    else none
  else if st.pc i = 3 then
    -- self._write_metadata_locked()
    if st.lock = some i then
      some { st with
        cache := { st.cache with metadata_file := some st.cache.metadata },
        pc := Function.update st.pc i 4 }
    else none
  else if st.pc i = 4 then
    -- leave the with-block
    if st.lock = some i then
      some { st with lock := none, pc := Function.update st.pc i 5 }
    else none
  else none

/-- Run a schedule (a list of thread ids, each id firing its thread's next
step). -/
def runSched (st : ConcState n) : List (Fin n) → Option (ConcState n)
  | [] => some st
  | i :: rest =>
    match threadStep dir md5 sz kf dfs etags tf i st with
    | none => none
    | some st1 => runSched st1 rest

/-- The initial state: fresh cache directory, free lock, all threads
before their artifact write. -/
def initConc (n : ℕ) : ConcState n := ⟨⟨[], [], none⟩, none, fun _ => 0⟩

/-- Inductive invariant of the concurrent `store` model. -/
structure StoreInv (st : ConcState n) : Prop where
  pc_le : ∀ i, st.pc i ≤ 5
  lock_iff : ∀ i, st.lock = some i ↔
    (st.pc i = 2 ∨ st.pc i = 3 ∨ st.pc i = 4)
  lookup_done : ∀ i, 3 ≤ st.pc i →
    st.cache.metadata.lookup (kf i)
      = some (entryOf dir md5 sz kf dfs etags tf i)
  lookup_not_done : ∀ i, st.pc i < 3 →
    st.cache.metadata.lookup (kf i) = none
  len : st.cache.metadata.length
    = (Finset.univ.filter fun i => 3 ≤ st.pc i).card
  persisted : (∀ i, st.pc i ≠ 3) →
    st.cache.metadata_file.getD [] = st.cache.metadata

end Concurrent

theorem filter_eq_self_of_lookup_none {β : Type} (l : List (String × β))
    (k : String) (h : l.lookup k = none) :
    l.filter (fun p => p.1 != k) = l := by
  induction l with
  | nil => rfl
  | cons p rest ih =>
    have hk : (k == p.1) = false := by
      cases hkk : (k == p.1) with
      | true =>
        rw [List.lookup, hkk] at h
        exact absurd h (by simp)
      | false => rfl
    have h1 : (p.1 != k) = true := by
      simp only [bne_iff_ne, ne_eq]
      intro hh
      rw [hh] at hk
      simp at hk
    rw [List.lookup, hk] at h
    rw [List.filter_cons]
    simp only [h1, if_true]
    rw [ih h]

theorem upsert_fresh {β : Type} (l : List (String × β)) (k : String) (v : β)
    (h : l.lookup k = none) : upsert l k v = (k, v) :: l := by
  rw [upsert, filter_eq_self_of_lookup_none l k h]

theorem filter_update_congr {n : ℕ} (pc : Fin n → ℕ) (i : Fin n) (v : ℕ)
    (h : (3 ≤ v) ↔ (3 ≤ pc i)) :
    (Finset.univ.filter fun j => 3 ≤ Function.update pc i v j)
      = Finset.univ.filter fun j => 3 ≤ pc j := by
  ext j
  by_cases hj : j = i
  · subst hj
    simp [Function.update_same, h]
  · simp [Function.update_noteq hj]

theorem card_filter_update_to3 {n : ℕ} (pc : Fin n → ℕ) (i : Fin n)
    (h : pc i = 2) :
    (Finset.univ.filter fun j => 3 ≤ Function.update pc i 3 j).card
      = (Finset.univ.filter fun j => 3 ≤ pc j).card + 1 := by
  have hset : (Finset.univ.filter fun j => 3 ≤ Function.update pc i 3 j)
      = insert i (Finset.univ.filter fun j => 3 ≤ pc j) := by
    ext j
    by_cases hj : j = i
    · subst hj
      simp [Function.update_same, h]
    · simp [Function.update_noteq hj, hj]
  rw [hset, Finset.card_insert_of_not_mem]
  simp [h]

theorem threadStep_preserves (dir : String) (md5 : String → String)
    (sz : DF → ℚ) {n : ℕ} (kf : Fin n → String) (dfs : Fin n → DF)
    (etags : Fin n → Option String) (tf : Fin n → ℚ)
    (hkf : Function.Injective kf) (i : Fin n) (st st1 : ConcState n)
    (hstep : threadStep dir md5 sz kf dfs etags tf i st = some st1)
    (hI : StoreInv dir md5 sz kf dfs etags tf st) :
    StoreInv dir md5 sz kf dfs etags tf st1 := by
  obtain ⟨hle, hlock, hdone, hnot, hlen, hpers⟩ := hI
  by_cases h0 : st.pc i = 0
  · -- write the parquet artifact
    unfold threadStep at hstep
    rw [if_pos h0] at hstep
    injection hstep with hh
    subst hh
    refine ⟨?_, ?_, ?_, ?_, ?_, ?_⟩
    · intro j
      by_cases hj : j = i
      · subst hj
        simp [Function.update_same]
      · simp only [Function.update_noteq hj]
        exact hle j
    · intro j
      by_cases hj : j = i
      · subst hj
        constructor
        · intro hl
          have hpc := (hlock j).mp hl
          rw [h0] at hpc
          exact absurd hpc (by decide)
        · intro hr
          simp only [Function.update_same] at hr
          exact absurd hr (by decide)
      · simp only [Function.update_noteq hj]
        exact hlock j
    · intro j hj
      by_cases hjj : j = i
      · subst hjj
        simp only [Function.update_same] at hj
        omega
      · simp only [Function.update_noteq hjj] at hj
        exact hdone j hj
    · intro j hj
      by_cases hjj : j = i
      · subst hjj
        exact hnot j (by omega)
      · simp only [Function.update_noteq hjj] at hj
        exact hnot j hj
    · rw [filter_update_congr st.pc i 1 (by omega)]
      exact hlen
    · intro h
      apply hpers
      intro j
      by_cases hjj : j = i
      · subst hjj
        omega
      · have hj := h j
        simp only [Function.update_noteq hjj] at hj
        exact hj
  by_cases h1 : st.pc i = 1
  · -- acquire the lock
    unfold threadStep at hstep
    rw [if_neg h0, if_pos h1] at hstep
    by_cases hL : st.lock = none
    case neg => rw [if_neg hL] at hstep; cases hstep
    rw [if_pos hL] at hstep
    injection hstep with hh
    subst hh
    refine ⟨?_, ?_, ?_, ?_, ?_, ?_⟩
    · intro j
      by_cases hj : j = i
      · subst hj
        simp [Function.update_same]
      · simp only [Function.update_noteq hj]
        exact hle j
    · intro j
      by_cases hj : j = i
      · subst hj
        constructor
        · intro _
          exact Or.inl (Function.update_same j 2 st.pc)
        · intro _
          rfl
      · constructor
        · intro hl
          injection hl with hij
          exact absurd hij.symm hj
        · intro hr
          simp only [Function.update_noteq hj] at hr
          have hsome := (hlock j).mpr hr
          rw [hL] at hsome
          cases hsome
    · intro j hj
      by_cases hjj : j = i
      · subst hjj
        simp only [Function.update_same] at hj
        omega
      · simp only [Function.update_noteq hjj] at hj
        exact hdone j hj
    · intro j hj
      by_cases hjj : j = i
      · subst hjj
        exact hnot j (by omega)
      · simp only [Function.update_noteq hjj] at hj
        exact hnot j hj
    · rw [filter_update_congr st.pc i 2 (by omega)]
      exact hlen
    · intro h
      apply hpers
      intro j
      by_cases hjj : j = i
      · subst hjj
        omega
      · have hj := h j
        simp only [Function.update_noteq hjj] at hj
        exact hj
  by_cases h2 : st.pc i = 2
  · -- write the index entry under the lock
    unfold threadStep at hstep
    rw [if_neg h0, if_neg h1, if_pos h2] at hstep
    by_cases hLi : st.lock = some i
    case neg => rw [if_neg hLi] at hstep; cases hstep
    rw [if_pos hLi] at hstep
    injection hstep with hh
    subst hh
    refine ⟨?_, ?_, ?_, ?_, ?_, ?_⟩
    · intro j
      by_cases hj : j = i
      · subst hj
        simp [Function.update_same]
      · simp only [Function.update_noteq hj]
        exact hle j
    · intro j
      by_cases hj : j = i
      · subst hj
        constructor
        · intro _
          exact Or.inr (Or.inl (Function.update_same j 3 st.pc))
        · intro _
          exact hLi
      · constructor
        · intro hl
          rw [hLi] at hl
          injection hl with hij
          exact absurd hij.symm hj
        · intro hr
          simp only [Function.update_noteq hj] at hr
          have hsome := (hlock j).mpr hr
          rw [hLi] at hsome
          injection hsome with hij
          exact absurd hij.symm hj
    · intro j hj
      by_cases hjj : j = i
      · subst hjj
        exact lookup_upsert_self _ _ _
      · simp only [Function.update_noteq hjj] at hj
        have hkne : kf j ≠ kf i := fun hh => hjj (hkf hh)
        rw [lookup_upsert_ne _ _ _ _ hkne]
        exact hdone j hj
    · intro j hj
      by_cases hjj : j = i
      · subst hjj
        simp only [Function.update_same] at hj
        omega
      · simp only [Function.update_noteq hjj] at hj
        have hkne : kf j ≠ kf i := fun hh => hjj (hkf hh)
        rw [lookup_upsert_ne _ _ _ _ hkne]
        exact hnot j hj
    · have hfresh : st.cache.metadata.lookup (kf i) = none :=
        hnot i (by omega)
      show (upsert st.cache.metadata (kf i) _).length = _
      rw [upsert_fresh _ _ _ hfresh, List.length_cons, hlen,
        card_filter_update_to3 st.pc i h2]
    · intro h
      exact absurd (Function.update_same i 3 st.pc) (h i)
  by_cases h3 : st.pc i = 3
  · -- flush the index under the lock
    unfold threadStep at hstep
    rw [if_neg h0, if_neg h1, if_neg h2, if_pos h3] at hstep
    by_cases hLi : st.lock = some i
    case neg => rw [if_neg hLi] at hstep; cases hstep
    rw [if_pos hLi] at hstep
    injection hstep with hh
    subst hh
    refine ⟨?_, ?_, ?_, ?_, ?_, ?_⟩
    · intro j
      by_cases hj : j = i
      · subst hj
        simp [Function.update_same]
      · simp only [Function.update_noteq hj]
        exact hle j
    · intro j
      by_cases hj : j = i
      · subst hj
        constructor
        · intro _
          exact Or.inr (Or.inr (Function.update_same j 4 st.pc))
        · intro _
          exact hLi
      · constructor
        · intro hl
          rw [hLi] at hl
          injection hl with hij
          exact absurd hij.symm hj
        · intro hr
          simp only [Function.update_noteq hj] at hr
          have hsome := (hlock j).mpr hr
          rw [hLi] at hsome
          injection hsome with hij
          exact absurd hij.symm hj
    · intro j hj
      by_cases hjj : j = i
      · subst hjj
        exact hdone j (by omega)
      · simp only [Function.update_noteq hjj] at hj
        exact hdone j hj
    · intro j hj
      by_cases hjj : j = i
      · subst hjj
        simp only [Function.update_same] at hj
        omega
      · simp only [Function.update_noteq hjj] at hj
        exact hnot j hj
    · rw [filter_update_congr st.pc i 4 (by omega)]
      exact hlen
    · intro _
      rfl
  by_cases h4 : st.pc i = 4
  · -- release the lock
    unfold threadStep at hstep
    rw [if_neg h0, if_neg h1, if_neg h2, if_neg h3, if_pos h4] at hstep
    by_cases hLi : st.lock = some i
    case neg => rw [if_neg hLi] at hstep; cases hstep
    rw [if_pos hLi] at hstep
    injection hstep with hh
    subst hh
    refine ⟨?_, ?_, ?_, ?_, ?_, ?_⟩
    · intro j
      by_cases hj : j = i
      · subst hj
        simp [Function.update_same]
      · simp only [Function.update_noteq hj]
        exact hle j
    · intro j
      constructor
      · intro hl
        cases hl
      · intro hr
        by_cases hj : j = i
        · subst hj
          simp only [Function.update_same] at hr
          exact absurd hr (by decide)
        · simp only [Function.update_noteq hj] at hr
          have hsome := (hlock j).mpr hr
          rw [hLi] at hsome
          injection hsome with hij
          exact absurd hij.symm hj
    · intro j hj
      by_cases hjj : j = i
      · subst hjj
        exact hdone j (by omega)
      · simp only [Function.update_noteq hjj] at hj
        exact hdone j hj
    · intro j hj
      by_cases hjj : j = i
      · subst hjj
        simp only [Function.update_same] at hj
        omega
      · simp only [Function.update_noteq hjj] at hj
        exact hnot j hj
    · rw [filter_update_congr st.pc i 5 (by omega)]
      exact hlen
    · intro h
      apply hpers
      intro j
      by_cases hjj : j = i
      · subst hjj
        omega
      · have hj := h j
        simp only [Function.update_noteq hjj] at hj
        exact hj
  · -- the thread is already done: no step fires
    unfold threadStep at hstep
    rw [if_neg h0, if_neg h1, if_neg h2, if_neg h3, if_neg h4] at hstep
    cases hstep

theorem runSched_preserves (dir : String) (md5 : String → String)
    (sz : DF → ℚ) {n : ℕ} (kf : Fin n → String) (dfs : Fin n → DF)
    (etags : Fin n → Option String) (tf : Fin n → ℚ)
    (hkf : Function.Injective kf) (sched : List (Fin n))
    (st final : ConcState n)
    (hrun : runSched dir md5 sz kf dfs etags tf st sched = some final)
    (hI : StoreInv dir md5 sz kf dfs etags tf st) :
    StoreInv dir md5 sz kf dfs etags tf final := by
  induction sched generalizing st with
  | nil =>
    rw [runSched] at hrun
    injection hrun with hh
    subst hh
    exact hI
  | cons i rest ih =>
    rw [runSched] at hrun
    cases hstep : threadStep dir md5 sz kf dfs etags tf i st with
    | none =>
      rw [hstep] at hrun
      cases hrun
    | some st1 =>
      rw [hstep] at hrun
      exact ih st1 hrun
        (threadStep_preserves dir md5 sz kf dfs etags tf hkf i st st1
          hstep hI)

/-- C9: for every number of threads, every choice of pairwise-distinct
keys, and every valid interleaving of the per-thread `store` step
sequences (lock steps serialized by the `RLock`, artifact writes free to
interleave, including one writer paused between index update and index
flush while another writer proceeds), a completed run leaves the
in-memory index with exactly `n` well-formed entries — one per key, each
carrying its thread's timestamp, etag, artifact path, and row count — and
the persisted index file equal to the in-memory index (no lost update, no
torn flush). -/
theorem concurrent_store_safe (dir : String) (md5 : String → String)
    (sz : DF → ℚ) {n : ℕ} (kf : Fin n → String) (dfs : Fin n → DF)
    (etags : Fin n → Option String) (tf : Fin n → ℚ)
    (sched : List (Fin n)) (final : ConcState n)
    (hkf : Function.Injective kf)
    (hrun : runSched dir md5 sz kf dfs etags tf (initConc n) sched
      = some final)
    (hdone : ∀ i, final.pc i = 5) :
    final.cache.metadata.length = n
    ∧ (∀ i, final.cache.metadata.lookup (kf i)
        = some (entryOf dir md5 sz kf dfs etags tf i))
    ∧ final.cache.metadata_file.getD [] = final.cache.metadata := by
  have hinit : StoreInv dir md5 sz kf dfs etags tf (initConc n) := by
    refine ⟨?_, ?_, ?_, ?_, ?_, ?_⟩
    · intro i
      simp [initConc]
    · intro i
      simp [initConc]
    · intro i hi
      simp [initConc] at hi
    · intro i _
      rfl
    · simp [initConc]
    · intro _
      rfl
  have hfin := runSched_preserves dir md5 sz kf dfs etags tf hkf sched
    (initConc n) final hrun hinit
  refine ⟨?_, ?_, ?_⟩
  · rw [hfin.len]
    have huniv : (Finset.univ.filter fun i => 3 ≤ final.pc i)
        = Finset.univ := by
      ext i
      simp [hdone i]
    rw [huniv, Finset.card_univ, Fintype.card_fin]
  · intro i
    exact hfin.lookup_done i (by rw [hdone i]; omega)
  · exact hfin.persisted fun i => by rw [hdone i]; omega

/-- Keys for the two-thread C9 witness. -/
def kf2 : Fin 2 → String := fun i => if i = 0 then "alpha" else "bravo"

/-- Tables stored by the two witness threads. -/
def dfs2 : Fin 2 → DF := fun _ => [⟨"Alex Atherton", "00:54:30"⟩]

/-- Etags for the two witness threads. -/
def etags2 : Fin 2 → Option String := fun _ => none

/-- Store times for the two witness threads. -/
def tf2 : Fin 2 → ℚ := fun _ => 0

/-- An interleaved witness schedule: thread 0 writes its artifact,
acquires, and updates the index; thread 1 then writes its artifact while
thread 0 still holds the lock between index update and flush; thread 0
flushes and releases; thread 1 runs its critical section. -/
def sched2 : List (Fin 2) := [0, 0, 0, 1, 0, 0, 1, 1, 1, 1]

/-- C9 witness: `concurrent_store_safe` applied to the concrete
interleaving `sched2` of two `store` calls with distinct keys. -/
theorem concurrent_store_safe_witness :
    ∃ final,
      runSched "d" id (fun _ => 0) kf2 dfs2 etags2 tf2 (initConc 2) sched2
        = some final
      ∧ final.cache.metadata.length = 2
      ∧ (∀ i, final.cache.metadata.lookup (kf2 i)
          = some (entryOf "d" id (fun _ => 0) kf2 dfs2 etags2 tf2 i))
      ∧ final.cache.metadata_file.getD [] = final.cache.metadata := by
  cases hr : runSched "d" id (fun _ => 0) kf2 dfs2 etags2 tf2 (initConc 2)
      sched2 with
  | none =>
    have hs : (runSched "d" id (fun _ => 0) kf2 dfs2 etags2 tf2 (initConc 2)
        sched2).isSome = true := by decide
    rw [hr] at hs
    cases hs
  | some final =>
    have hchk : (runSched "d" id (fun _ => 0) kf2 dfs2 etags2 tf2
        (initConc 2) sched2).map
          (fun f => decide (f.pc 0 = 5) && decide (f.pc 1 = 5))
        = some true := by decide
    rw [hr] at hchk
    have hb : (decide (final.pc 0 = 5) && decide (final.pc 1 = 5))
        = true := by
      injection hchk
    rw [Bool.and_eq_true] at hb
    have hp0 : final.pc 0 = 5 := of_decide_eq_true hb.1
    have hp1 : final.pc 1 = 5 := of_decide_eq_true hb.2
    have hdone : ∀ i : Fin 2, final.pc i = 5 := by
      intro i
      fin_cases i
      · exact hp0
      · exact hp1
    have hkf : Function.Injective kf2 := by decide
    have hm := concurrent_store_safe "d" id (fun _ => 0) kf2 dfs2 etags2 tf2
      sched2 final hkf hr hdone
    exact ⟨final, rfl, hm.1, hm.2.1, hm.2.2⟩

/-! ## `get_race` (core.py 248–341) and its helpers -/

/-- `mmss_to_minutes` (core.py 480–484) on one cell: strip, promote
`MM:SS` to `0:MM:SS` when the string does not already have two colons,
parse `H:MM:SS` as a timedelta, and return total seconds / 60 in minutes.
An unparseable cell becomes `none` (pandas `NaN` under
`errors="coerce"`); fractional-second and other exotic timedelta
spellings accepted by pandas are outside the claims verified here. -/
def mmssToMinutes (s0 : String) : Option ℚ :=
  let s1 := s0.trim
  let s2 := if (s1.toList.filter (fun c => c == ':')).length = 2 then s1
    else "0:" ++ s1
  match s2.split (fun c => c == ':') with
  | [h, m, sec] => do
    let hh ← h.toNat?
    let mm ← m.toNat?
    let ss ← sec.toNat?
    pure ((hh : ℚ) * 60 + (mm : ℚ) + (ss : ℚ) / 60)
  | _ => none

/-- The per-row effect of `get_race`'s time conversion (core.py 322–324)
on the `total_time` column. -/
def convertRow (r : Row) : RowC :=
  { name := r.name, total_time := mmssToMinutes r.total_time }

/-- The `total_time` argument of `get_race`: absent, a single number, or
a python tuple (modelled as a list so wrong tuple lengths are
representable; floats modelled as rationals). -/
inductive TotalTimeArg where
  | missing
  | scalar (t : ℚ)
  | interval (l : List (Option ℚ))
deriving DecidableEq, Repr

/-- Model of `f"{float(value):g}"` in `_format_bound` (core.py 275–278):
a canonical, locale-independent decimal rendering.  On integral values
`%g` prints the plain integer digits, which is what this returns; for
non-integral values a fixed `num/den` rendering stands in for the `%g`
digit string (the verified claims only compare whole keys, never the
digit text of a non-integral bound). -/
def ratG (q : ℚ) : String :=
  if q.den = 1 then toString q.num
  else toString q.num ++ "/" ++ toString q.den

/-- `_format_bound` (core.py 275–278): `None` renders as `"none"`. -/
def formatBound (v : Option ℚ) : String :=
  match v with
  | none => "none"
  | some q => ratG q

/-- Lines 280–294 of `get_race`: compute
`(lower_bound, upper_bound, total_time_key)` from the `total_time`
argument; a tuple whose length is not 2 raises `ValueError` — before the
cache or the network is touched. -/
def totalTimeBounds : TotalTimeArg → Except PyErr (Option ℚ × Option ℚ × String)
  | .missing => .ok (none, none, "all")
  | .interval [lo, hi] =>
    .ok (lo, hi, "range_" ++ formatBound lo ++ "_" ++ formatBound hi)
  | .interval _ =>
    .error (.valueError
      "total_time tuple must contain exactly two values (lower, upper)")
  | .scalar t => .ok (none, some t, "lt_" ++ ratG t)

/-- Python `year or 'all'` (core.py 298) for an optional int: `None` and
the falsy `0` both render as `"all"`. -/
def pyOrAllInt (v : Option ℤ) : String :=
  match v with
  | none => "all"
  | some x => if x = 0 then "all" else toString x

/-- Python `gender or 'all'` / `division or 'all'` (core.py 298–299) for
an optional string: `None` and the falsy empty string render as `"all"`. -/
def pyOrAllStr (v : Option String) : String :=
  match v with
  | none => "all"
  | some s => if s = "" then "all" else s

/-- The cache-key f-string of `get_race` (core.py 297–300). -/
def race_cache_key (season : ℤ) (location : String) (year : Option ℤ)
    (gender division : Option String) (total_time_key : String) : String :=
  "race_" ++ toString season ++ "_" ++ location ++ "_" ++ pyOrAllInt year
    ++ "_" ++ pyOrAllStr gender ++ "_" ++ pyOrAllStr division ++ "_"
    ++ total_time_key

/-- The full `CacheKey` computed by `get_race` for a filter set, or the
`ValueError` raised for a malformed tuple. -/
def raceCacheKey (season : ℤ) (location : String) (year : Option ℤ)
    (gender division : Option String) (tt : TotalTimeArg) :
    Except PyErr String :=
  (totalTimeBounds tt).map fun b =>
    race_cache_key season location year gender division b.2.2

/-- One row against `mask &= total_time_series > lower_bound`
(core.py 331–332): a row whose total time did not parse (`NaN`) never
passes a bounded comparison. -/
def rowPassesLower (lb : Option ℚ) (tt : Option ℚ) : Bool :=
  match lb with
  | none => true
  | some lo =>
    match tt with
    | some v => decide (lo < v)
    | none => false

/-- One row against `mask &= total_time_series < upper_bound`
(core.py 333–334). -/
def rowPassesUpper (ub : Option ℚ) (tt : Option ℚ) : Bool :=
  match ub with
  | none => true
  | some hi =>
    match tt with
    | some v => decide (v < hi)
    | none => false

/-- Lines 326–335 of `get_race`: apply the open-interval total-time mask
when at least one bound is set, else leave the table untouched. -/
def applyTotalTimeFilter (lb ub : Option ℚ) (df : DFC) : DFC :=
  if lb.isSome || ub.isSome then
    df.filter fun r =>
      rowPassesLower lb r.total_time && rowPassesUpper ub r.total_time
  else df

/-- `_get_race_from_cdn` (core.py 233–246): `cdnRead` is the outcome of
the `fsspec`/parquet read of the manifest-resolved URL (`Except.error` =
any exception from the open/read, e.g. the remote object being absent).
Zero rows after the pushed-down filters raise `RaceNotFound`; any other
failure is wrapped in `FileNotFoundError`. -/
def get_race_from_cdn (url : String) (cdnRead : Except String DF) :
    Except PyErr DF :=
  match cdnRead with
  | .error m =>
    .error (.fileNotFound ("CDN read failed for " ++ url ++ ": " ++ m))
  | .ok table =>
    if table.length = 0 then
      .error (.raceNotFound ("No rows after filters at " ++ url))
    else .ok table

/-- Lines 310–313 of `get_race`:
`except (RaceNotFound, FileNotFoundError) as e: raise FileNotFoundError(...)`
— both the typed not-found outcome and transport failures are re-raised
as `FileNotFoundError`. -/
def getRaceRescue (season : ℤ) (location : String)
    (fetched : Except PyErr DF) : Except PyErr DF :=
  match fetched with
  | .error (.raceNotFound m) =>
    .error (.fileNotFound ("Read failed for season" ++ toString season
      ++ ", location=" ++ location ++ " - " ++ m))
  | .error (.fileNotFound m) =>
    .error (.fileNotFound ("Read failed for season" ++ toString season
      ++ ", location=" ++ location ++ " - " ++ m))
  | other => other

/-- `get_race` (core.py 248–341) with its collaborators abstracted:
`cached` is the table a fresh-cache hit returns (`none` on miss, stale
entry, or `use_cache=False`); `fetch` is the thunked
`_get_race_from_cdn` call.  The bounds — and the `ValueError` for a bad
tuple — are computed before the cache or `fetch` is touched; on a fetch
the time columns are converted (`mmss_to_minutes`) and the total-time
mask applied.  The `KeyError` branch for a missing `total_time` column
cannot arise in this row model, and the final `cache.store` write-back
does not affect the returned value; neither is modelled. -/
def get_race (season : ℤ) (location : String) (cached : Option DFC)
    (tt : TotalTimeArg) (fetch : Unit → Except PyErr DF) :
    Except PyErr DFC :=
  match totalTimeBounds tt with
  | .error e => .error e
  | .ok (lb, ub, _key) =>
    match cached with
    | some df => .ok df
    | none =>
      match getRaceRescue season location (fetch ()) with
      | .error e => .error e
      | .ok df => .ok (applyTotalTimeFilter lb ub (df.map convertRow))

/-! ## `get_season` (core.py 387–452) -/

/-- Python `str.casefold` on the ASCII location names used here. -/
def caseFold (s : String) : String := s.toLower

/-- `list_races` restricted to one season (core.py 189–199): the distinct
locations the manifest lists for `season` (the manifest is a list of
`(season, location)` rows).  `list_races` also sorts; ordering is not
relevant to any verified claim and is left as the manifest order. -/
def list_races_locations (manifest : List (ℤ × String)) (season : ℤ) :
    List String :=
  ((manifest.filter fun p => p.1 == season).map Prod.snd).dedup

/-- Lines 409–413 of `get_season`: discover the season's locations and,
when a location subset was requested (and is non-empty — python
truthiness), intersect case-insensitively. -/
def resolveLocations (manifest : List (ℤ × String)) (season : ℤ)
    (locations : Option (List String)) : List String :=
  let locs := list_races_locations manifest season
  match locations with
  | none => locs
  | some req =>
    if req.isEmpty then locs
    else locs.filter fun l => (req.map caseFold).contains (caseFold l)

/-- Lines 427–443 of `get_season`: collect completed task outcomes in
completion order — append non-empty tables, skip `RaceNotFound`, raise
anything else; after all tasks, an empty accumulation yields an
explicitly empty table. -/
def getSeasonLoop (outcomes : List (Except PyErr DFC))
    (frames : List DFC) : Except PyErr DFC :=
  match outcomes with
  | [] => if frames.isEmpty then .ok [] else .ok frames.flatten
  | o :: rest =>
    match o with
    | .ok frame =>
      getSeasonLoop rest (if frame.isEmpty then frames else frames ++ [frame])
    | .error (.raceNotFound _) => getSeasonLoop rest frames
    | .error e => .error e

/-- `get_season` (core.py 387–452) with its collaborators abstracted:
`manifest` is the manifest's `(season, location)` rows; `fetchOne` is
the per-location task body (`fetch_one`, which calls `get_race`).
`as_completed`'s arbitrary completion order is modelled by the dispatch
order of the location list — every verified property of this function is
order-independent.  The season-level cache short-circuit and write-back
(lines 404–407, 449–450) do not affect the verified claims and are not
modelled. -/
def get_season (manifest : List (ℤ × String)) (season : ℤ)
    (locations : Option (List String))
    (fetchOne : String → Except PyErr DFC) : Except PyErr DFC :=
  let locs := resolveLocations manifest season locations
  if locs.isEmpty then
    .error (.raceNotFound ("No races found for season=" ++ toString season))
  else getSeasonLoop (locs.map fetchOne) []

/-- C10: `get_race`'s total-time filtering: a single number keeps exactly
the converted rows strictly below it; a two-element tuple keeps exactly
the rows strictly inside the open interval, a `None` bound leaving that
side unbounded; a tuple of the wrong length raises `ValueError` no matter
what the fetch would return (it is never invoked); and rows whose total
time fails to parse never pass a bounded filter. -/
theorem get_race_total_time_filter (season : ℤ) (location : String)
    (t : ℚ) (lb ub : Option ℚ) (df : DF) (l : List (Option ℚ)) :
    (get_race season location none (.scalar t) (fun _ => .ok df)
      = .ok ((df.map convertRow).filter fun r =>
          match r.total_time with
          | some v => decide (v < t)
          | none => false))
    ∧ (get_race season location none (.interval [lb, ub]) (fun _ => .ok df)
      = .ok ((df.map convertRow).filter fun r =>
          (match lb, r.total_time with
           | some lo, some v => decide (lo < v)
           | some _, none => false
           | none, _ => true)
          && (match ub, r.total_time with
           | some hi, some v => decide (v < hi)
           | some _, none => false
           | none, _ => true)))
    ∧ (l.length ≠ 2 → ∀ fetch : Unit → Except PyErr DF,
        get_race season location none (.interval l) fetch
          = .error (.valueError
            "total_time tuple must contain exactly two values (lower, upper)"))
    ∧ (∀ res, get_race season location none (.scalar t) (fun _ => .ok df)
        = .ok res → ∀ r ∈ res, r.total_time ≠ none)
    ∧ (lb ≠ none ∨ ub ≠ none →
        ∀ res, get_race season location none (.interval [lb, ub])
          (fun _ => .ok df) = .ok res →
        ∀ r ∈ res, r.total_time ≠ none) := by
  have ha : get_race season location none (.scalar t) (fun _ => .ok df)
      = .ok ((df.map convertRow).filter fun r =>
          match r.total_time with
          | some v => decide (v < t)
          | none => false) := by
    have h1 : get_race season location none (.scalar t) (fun _ => .ok df)
        = .ok ((df.map convertRow).filter fun r =>
            rowPassesLower none r.total_time
              && rowPassesUpper (some t) r.total_time) := rfl
    rw [h1]
    exact congrArg Except.ok (List.filter_congr fun r _ => by
      cases r.total_time <;> simp [rowPassesLower, rowPassesUpper])
  have hb : get_race season location none (.interval [lb, ub])
      (fun _ => .ok df)
      = .ok ((df.map convertRow).filter fun r =>
          (match lb, r.total_time with
           | some lo, some v => decide (lo < v)
           | some _, none => false
           | none, _ => true)
          && (match ub, r.total_time with
           | some hi, some v => decide (v < hi)
           | some _, none => false
           | none, _ => true)) := by
    rcases lb with _ | lo <;> rcases ub with _ | hi
    · -- both bounds absent: the mask is not applied at all
      have h1 : get_race season location none
          (.interval [none, none]) (fun _ => .ok df)
          = .ok (df.map convertRow) := rfl
      rw [h1]
      refine congrArg Except.ok ?_
      refine (List.filter_eq_self.mpr fun r _ => rfl).symm
    · have h1 : get_race season location none
          (.interval [none, some hi]) (fun _ => .ok df)
          = .ok ((df.map convertRow).filter fun r =>
              rowPassesLower none r.total_time
                && rowPassesUpper (some hi) r.total_time) := rfl
      rw [h1]
      exact congrArg Except.ok (List.filter_congr fun r _ => by
        cases r.total_time <;> simp [rowPassesLower, rowPassesUpper])
    · have h1 : get_race season location none
          (.interval [some lo, none]) (fun _ => .ok df)
          = .ok ((df.map convertRow).filter fun r =>
              rowPassesLower (some lo) r.total_time
                && rowPassesUpper none r.total_time) := rfl
      rw [h1]
      exact congrArg Except.ok (List.filter_congr fun r _ => by
        cases r.total_time <;> simp [rowPassesLower, rowPassesUpper])
    · have h1 : get_race season location none
          (.interval [some lo, some hi]) (fun _ => .ok df)
          = .ok ((df.map convertRow).filter fun r =>
              rowPassesLower (some lo) r.total_time
                && rowPassesUpper (some hi) r.total_time) := rfl
      rw [h1]
      exact congrArg Except.ok (List.filter_congr fun r _ => by
        cases r.total_time <;> simp [rowPassesLower, rowPassesUpper])
  refine ⟨ha, hb, ?_, ?_, ?_⟩
  · intro hl fetch
    rcases l with _ | ⟨a, _ | ⟨b, _ | ⟨c, rest⟩⟩⟩
    · rfl
    · rfl
    · exact absurd rfl hl
    · rfl
  · intro res hres r hr hnone
    rw [ha] at hres
    injection hres with h2
    rw [← h2, List.mem_filter] at hr
    rw [hnone] at hr
    simp at hr
  · intro hbound res hres r hr hnone
    rw [hb] at hres
    injection hres with h2
    rw [← h2, List.mem_filter] at hr
    have hpass := hr.2
    rw [hnone] at hpass
    rcases hbound with hlb | hub
    · rcases lb with _ | lo
      · exact absurd rfl hlb
      · simp at hpass
    · rcases ub with _ | hi
      · exact absurd rfl hub
      · simp at hpass

/-- C10 witness: `get_race_total_time_filter` at a concrete race table,
with the hypothesis-bearing conjuncts discharged at a malformed
one-element tuple and a lower-bounded interval. -/
theorem get_race_total_time_filter_witness :
    (get_race 5 "London" none (.interval [some 55]) (fun _ => .ok [])
      = .error (.valueError
        "total_time tuple must contain exactly two values (lower, upper)"))
    ∧ (∀ res, get_race 5 "London" none (.interval [some 55, none])
        (fun _ => .ok [⟨"Alex Atherton", "00:54:30"⟩,
          ⟨"DNF Runner", "not a time"⟩]) = .ok res →
      ∀ r ∈ res, r.total_time ≠ none) :=
  ⟨(get_race_total_time_filter 5 "London" 0 (some 55) none [] [some 55]).2.2.1
      (by decide) (fun _ => .ok []),
   (get_race_total_time_filter 5 "London" 0 (some 55) none
      [⟨"Alex Atherton", "00:54:30"⟩, ⟨"DNF Runner", "not a time"⟩] []).2.2.2.2
      (Or.inl (by simp))⟩

/-- C3 counterexample: logically identical queries can produce different
keys — the same upper bound 90 as a scalar yields `…_lt_90` while the
tuple `(None, 90)` yields `…_range_none_90`, and the same location in a
different letter case changes the key although the manifest lookup is
case-insensitive — and two distinct queries can collide: gender
`"pro_m"` with no division filter and gender `"pro"` with division
`"m_all"` flatten to the same key. -/
theorem race_cache_key_not_canonical :
    raceCacheKey 6 "London" none none none (.scalar 90)
      ≠ raceCacheKey 6 "London" none none none (.interval [none, some 90])
    ∧ raceCacheKey 6 "London" none none none .missing
      ≠ raceCacheKey 6 "london" none none none .missing
    ∧ raceCacheKey 6 "London" none (some "pro_m") none .missing
      = raceCacheKey 6 "London" none (some "pro") (some "m_all") .missing := by
  refine ⟨?_, ?_, rfl⟩
  · intro h
    rw [show raceCacheKey 6 "London" none none none (.scalar 90)
        = Except.ok "race_6_London_all_all_all_lt_90" from rfl,
      show raceCacheKey 6 "London" none none none (.interval [none, some 90])
        = Except.ok "race_6_London_all_all_all_range_none_90" from rfl] at h
    injection h with h2
    exact absurd h2 (by decide)
  · intro h
    rw [show raceCacheKey 6 "London" none none none .missing
        = Except.ok "race_6_London_all_all_all_all" from rfl,
      show raceCacheKey 6 "london" none none none .missing
        = Except.ok "race_6_london_all_all_all_all" from rfl] at h
    injection h with h2
    exact absurd h2 (by decide)

/-- C3 amended: the key is a deterministic function of the raw inputs,
and an omitted gender or division and the explicit string `"all"`
canonicalize to the same key text; but a scalar bound and its equivalent
`(None, bound)` tuple, or location spellings differing in case, yield
different keys, and distinct queries can collide when the location string
contains underscores (see the counterexample). -/
theorem race_cache_key_all_equiv (season : ℤ) (location : String)
    (year : Option ℤ) (gender division : Option String)
    (tt : TotalTimeArg) :
    raceCacheKey season location year none division tt
      = raceCacheKey season location year (some "all") division tt
    ∧ raceCacheKey season location year gender none tt
      = raceCacheKey season location year gender (some "all") tt := by
  constructor <;> rfl

/-- C4: the typed not-found outcome never reaches `get_race`'s caller
(lines 310–313 re-raise both `RaceNotFound` and `FileNotFoundError` as
`FileNotFoundError`): an absent remote object (zero rows / missing CDN
object) and a plain transport failure surface as the same
`FileNotFoundError` type, never as `RaceNotFound`. -/
theorem get_race_notfound_not_typed :
    (∃ m, get_race 7 "Rome" none .missing
        (fun _ => get_race_from_cdn "u" (.ok [])) = .error (.fileNotFound m))
    ∧ (∃ m, get_race 7 "Rome" none .missing
        (fun _ => get_race_from_cdn "u" (.error "connection timeout"))
      = .error (.fileNotFound m))
    ∧ ∀ m', get_race 7 "Rome" none .missing
        (fun _ => get_race_from_cdn "u" (.ok []))
      ≠ .error (.raceNotFound m') := by
  refine ⟨⟨_, rfl⟩, ⟨_, rfl⟩, ?_⟩
  intro m' h
  rw [show get_race 7 "Rome" none .missing
      (fun _ => get_race_from_cdn "u" (.ok []))
      = Except.error (PyErr.fileNotFound
        "Read failed for season7, location=Rome - No rows after filters at u")
    from rfl] at h
  injection h with h2
  injection h2

/-- Manifest rows for the C1 failing input: season 6, three locations. -/
def manifestC1 : List (ℤ × String) :=
  [(6, "London"), (6, "Berlin"), (6, "Madrid")]

/-- CDN outcomes for the C1 failing input: Berlin's object yields zero
rows (the typed not-found outcome inside `_get_race_from_cdn`), the other
two locations succeed with non-empty tables. -/
def cdnC1 : String → Except String DF := fun loc =>
  if loc = "Berlin" then .ok []
  else if loc = "London" then .ok [⟨"Alex Atherton", "00:54:30"⟩]
  else .ok [⟨"Maria Moore", "01:02:00"⟩]

/-- `fetch_one` (core.py 418–425): `get_race` applied to one location of
the season, composed with the CDN outcomes of the C1 failing input. -/
def fetchOneC1 : String → Except PyErr DFC := fun loc =>
  get_race 6 loc none .missing (fun _ => get_race_from_cdn loc (cdnC1 loc))

/-- C1 (bug evidence): on a season where exactly one location's fetch
terminates with the typed not-found outcome and the others succeed with
non-empty tables, `get_season` raises `FileNotFoundError` instead of
returning the concatenation — because `get_race` (core.py 312–313)
re-raises `RaceNotFound` as `FileNotFoundError`, `get_season`'s own
`except RaceNotFound: continue` (core.py 439–440) never matches.  The
second conjunct shows the aggregation loop embedded from core.py 427–443
would indeed concatenate the two successful tables had the typed outcome
reached it. -/
theorem get_season_raises_on_typed_notfound :
    (∃ m, get_season manifestC1 6 none fetchOneC1
      = .error (.fileNotFound m))
    ∧ getSeasonLoop [.ok [⟨"Alex Atherton", some 54⟩],
        .error (.raceNotFound "x"), .ok [⟨"Maria Moore", some 62⟩]] []
      = .ok ([⟨"Alex Atherton", some 54⟩] ++ [⟨"Maria Moore", some 62⟩]) :=
  ⟨⟨_, rfl⟩, rfl⟩

/-- C7: `get_season` distinguishes an unknown season from an empty one:
an empty resolved location set fails with the `RaceNotFound` ("no such
season") condition rather than returning an empty table, and when
locations exist but every dispatched task completes with an empty table
or the typed not-found outcome, it returns an explicitly empty table
without raising. -/
theorem get_season_unknown_vs_empty :
    (∀ manifest season locations fetchOne,
      resolveLocations manifest season locations = [] →
      get_season manifest season locations fetchOne
        = .error (.raceNotFound ("No races found for season="
            ++ toString season)))
    ∧ (∀ manifest season locations fetchOne,
        resolveLocations manifest season locations ≠ [] →
        (∀ loc ∈ resolveLocations manifest season locations,
          fetchOne loc = .ok []
            ∨ ∃ m, fetchOne loc = .error (.raceNotFound m)) →
        get_season manifest season locations fetchOne = .ok []) := by
  constructor
  · intro manifest season locations fetchOne hempty
    show (if (resolveLocations manifest season locations).isEmpty then _
      else _) = _
    rw [hempty]
    rfl
  · intro manifest season locations fetchOne hne hall
    have hloop : ∀ outcomes : List (Except PyErr DFC),
        (∀ o ∈ outcomes, o = .ok []
          ∨ ∃ m, o = .error (.raceNotFound m)) →
        getSeasonLoop outcomes [] = .ok [] := by
      intro outcomes
      induction outcomes with
      | nil => intro _; rfl
      | cons o rest ih =>
        intro h
        rcases h o (by simp) with ho | ⟨m, ho⟩
        · rw [ho]
          show getSeasonLoop rest [] = .ok []
          exact ih fun o2 ho2 => h o2 (List.mem_cons_of_mem _ ho2)
        · rw [ho]
          show getSeasonLoop rest [] = .ok []
          exact ih fun o2 ho2 => h o2 (List.mem_cons_of_mem _ ho2)
    show (if (resolveLocations manifest season locations).isEmpty then _
      else getSeasonLoop
        ((resolveLocations manifest season locations).map fetchOne) []) = _
    rw [if_neg (by simp [List.isEmpty_iff]; exact hne)]
    refine hloop _ fun o ho => ?_
    rw [List.mem_map] at ho
    obtain ⟨loc, hloc, rfl⟩ := ho
    exact hall loc hloc

/-- C7 witness: `get_season_unknown_vs_empty` at a concrete empty
manifest and at a one-location season whose only task reports the typed
not-found outcome. -/
theorem get_season_unknown_vs_empty_witness :
    get_season [] 9 none (fun _ => .ok [])
      = .error (.raceNotFound "No races found for season=9")
    ∧ get_season [((6:ℤ), "London")] 6 none
        (fun _ => .error (.raceNotFound "missing")) = .ok [] :=
  ⟨get_season_unknown_vs_empty.1 [] 9 none _ rfl,
   get_season_unknown_vs_empty.2 [((6:ℤ), "London")] 6 none _ (by decide)
     (fun loc _ => Or.inr ⟨"missing", rfl⟩)⟩

/-! ## C2: manifest fetching

Two manifest loaders exist in the repository: `manifest.load_manifest`
(manifest.py, used by the API layer) with a HEAD probe, ETag sidecar and
stale-cache fallback, and `PyroxClient._get_manifest` (core.py 158–187),
the one `get_race`/`fetch_one` actually uses, with a conditional GET
against the `CacheManager` and no stale fallback. -/

/-- The `try` of `load_manifest` (manifest.py 141–180): download the
manifest, parse it and run the schema checks — `download` is `.ok df`
when the S3 read, the CSV parse and the schema checks all succeed
(yielding the normalized frame) and `.error` when any of them raises —
and on any failure fall back to the cached CSV, raising
`ManifestUnavailable` only when no usable cache exists.  `cacheFile` is
`none` when the cached CSV is absent, `some none` when present but
unparseable, `some (some df)` when it parses. -/
def manifestDownload (cacheFile : Option (Option DF))
    (download : Except String DF) : Except PyErr DF :=
  match download with
  | .ok df => .ok df
  | .error m =>
    match cacheFile with
    | some (some df) => .ok df
    | _ => .error (.manifestUnavailable ("Could not load manifest: " ++ m))

/-- `load_manifest` (manifest.py 84–180): `head` is the `_head_s3` probe
outcome (`.ok etag?` — backends may omit the ETag — or `.error` when the
probe raises, in which case the source proceeds with
`current_etag = None`); `cachedEtag` is the sidecar read by `_read_etag`.
When a cached CSV exists and parses and the probe failed or the ETag
matches, the cached CSV is returned without downloading; otherwise the
download step runs.  Cache writes on a successful download do not affect
the returned value and are not modelled. -/
def load_manifest (refresh : Bool) (head : Except String (Option String))
    (cachedEtag : Option String) (cacheFile : Option (Option DF))
    (download : Except String DF) : Except PyErr DF :=
  let current_etag : Option String :=
    if refresh then
      match head with
      | .ok e => e
      | .error _ => none
    else none
  match cacheFile with
  | some (some df) =>
    if current_etag.isNone || (cachedEtag == current_etag) then .ok df
    else manifestDownload cacheFile download
  | _ => manifestDownload cacheFile download

/-- The network part of `PyroxClient._get_manifest` (core.py 168–187)
over an HTTP oracle: `http` is `.error` when `httpx` raises (network
failure, timeout), else `(status, parsed_body?, etag)` where
`parsed_body? = none` models a body `pd.read_csv` cannot parse (e.g. the
empty body of a 304).  A 304 serves the cache when loadable; otherwise
the flow falls through `raise_for_status` (which only raises at ≥ 400)
to the body parse.  There is no stale-cache fallback: when the GET
raises, the exception propagates. -/
def get_manifest_network (dir : String) (md5 : String → String)
    (sz : DF → ℚ) (now : ℚ) (st : CacheState)
    (http : Except String (ℕ × Option DF × Option String)) :
    Except PyErr DF × CacheState :=
  match http with
  | .error m => (.error (.transportError m), st)
  | .ok (status, body, etag) =>
    let tail := fun (st2 : CacheState) =>
      if 400 ≤ status then
        ((.error (.transportError ("HTTP " ++ toString status)) :
          Except PyErr DF), st2)
      else
        match body with
        | some df =>
          (.ok df, store dir md5 sz now st2 "manifest_cdn_v1" df etag)
        | none => (.error (.transportError "cannot parse response body"), st2)
    if status = 304 then
      match load dir md5 st "manifest_cdn_v1" with
      | (st1, some df) => (.ok df, st1)
      | (st1, none) => tail st1
    else tail st

/-- `PyroxClient._get_manifest` (core.py 158–187): fresh-cache
short-circuit, then the conditional GET.  The `If-None-Match` header
built from the cached etag (lines 169–172) only influences the server's
response, which the oracle embodies. -/
def get_manifest (dir : String) (md5 : String → String) (sz : DF → ℚ)
    (now : ℚ) (st : CacheState) (force_refresh : Bool)
    (http : Except String (ℕ × Option DF × Option String)) :
    Except PyErr DF × CacheState :=
  if !force_refresh && is_fresh now st "manifest_cdn_v1" 7200 then
    match load dir md5 st "manifest_cdn_v1" with
    | (st1, some df) => (.ok df, st1)
    | (st1, none) => get_manifest_network dir md5 sz now st1 http
  else get_manifest_network dir md5 sz now st http

/-- C2 amended: the stale-cache fallback lives in
`manifest.load_manifest` (used by the API layer), not in the client's
fetch path: when the ETag probe and the download both fail but a
previously cached manifest parses, `load_manifest` returns the stale
cache, and it raises `ManifestUnavailable` only when no usable cache
exists.  The client's `_get_manifest` (used by `get_race`/`fetch_one`)
has no such fallback — see `get_manifest_no_stale_fallback`. -/
theorem load_manifest_stale_fallback (eh eg : String)
    (cachedEtag : Option String) (df : DF) :
    load_manifest true (.error eh) cachedEtag (some (some df)) (.error eg)
      = .ok df
    ∧ load_manifest true (.error eh) cachedEtag none (.error eg)
      = .error (.manifestUnavailable ("Could not load manifest: " ++ eg))
    ∧ load_manifest true (.error eh) cachedEtag (some none) (.error eg)
      = .error (.manifestUnavailable ("Could not load manifest: " ++ eg)) :=
  ⟨rfl, rfl, rfl⟩

/-- A stale (created at time 0, read at time 10080 with TTL 7200) but
readable cached manifest under `_get_manifest`'s cache key. -/
def staleManifestState : CacheState :=
  { metadata := [("manifest_cdn_v1",
      ⟨0, some "etag0", "d/manifest_cdn_v1.parquet", 1, 0⟩)]
    files := [("d/manifest_cdn_v1.parquet", some [⟨"row", "00:54:30"⟩])]
    metadata_file := some [("manifest_cdn_v1",
      ⟨0, some "etag0", "d/manifest_cdn_v1.parquet", 1, 0⟩)] }

/-- C2 counterexample: in the fetch path's manifest resolution step
(`PyroxClient._get_manifest`), when the freshness window has passed and
the GET fails, the transport error propagates — the operation raises even
though a stale cached manifest exists and is loadable (second conjunct:
`load` would have returned it). -/
theorem get_manifest_no_stale_fallback :
    (get_manifest "d" id (fun _ => 0) 10080 staleManifestState false
      (.error "connection timeout")).1
      = .error (.transportError "connection timeout")
    ∧ (load "d" id staleManifestState "manifest_cdn_v1").2
      = some [⟨"row", "00:54:30"⟩] := by
  constructor
  · have hfresh : is_fresh 10080 staleManifestState "manifest_cdn_v1" 7200
        = false := by
      show decide ((10080 : ℚ) - 0 < 7200) = false
      simp only [decide_eq_false_iff_not, not_lt]
      norm_num
    unfold get_manifest
    rw [hfresh]
    rfl
  · rfl

end Pyrox
